import Mathlib

/-!
Verification of the just-in-time MCP tool provider
(`src/jit_mcp/tool_provider.py`, class `JITToolProvider`).

Strings are embedded as `List Char` (Python `str.split`, `str.startswith`
and slicing become list operations).  Each stateful method of
`JITToolProvider` becomes a function on an explicit `CacheState`, returning
the method result, the updated state, and a trace of the transport calls it
issued (the trace instruments the `await self.mcp_client...` call sites).
External collaborators (search service, registry, MCP client) are an
explicit `Env` of oracle functions; fallible Python calls are `Except`.
-/

namespace JitMcp

/-- Strings of the source are embedded as lists of characters. -/
abbrev Str := List Char

/-- The scheme literal `mcp+stdio://` stripped at tool_provider.py:190. -/
def schemeStdio : Str := "mcp+stdio://".toList

/-- The scheme literal `mcp://` stripped at tool_provider.py:192. -/
def schemeMcp : Str := "mcp://".toList

/-- Embedding of Python `path.split("/")` (str.split with an explicit,
nonempty separator): always returns at least one segment, `""` splits to
`[""]`, adjacent separators yield empty segments. -/
def splitOn (sep : Char) : Str → List Str
  | [] => [[]]
  | c :: cs =>
    match splitOn sep cs with
    | [] => [[]]
    | s :: rest => if c = sep then [] :: s :: rest else (c :: s) :: rest

/-- The `ALLOWED_COMMANDS` frozenset of tool_provider.py:12-15, as the list
of its members (only membership is ever used). -/
def ALLOWED_COMMANDS : List Str :=
  ["npx".toList, "node".toList, "python".toList, "python3".toList,
   "uvx".toList, "uv".toList, "echo".toList, "docker".toList,
   "deno".toList, "bun".toList]

/-- `StdioServerParameters(command=..., args=...)` as constructed at
tool_provider.py:207. -/
structure StdioServerParameters where
  command : Str
  args : List Str
deriving DecidableEq

/-- The failure of `_map_uri_to_params`: the `ValueError` raised at
tool_provider.py:202 when the parsed command is outside
`ALLOWED_COMMANDS`.  It is the only failure the function can raise; the
payload records the offending command (it appears in the message). -/
inductive ResolveError where
  | DisallowedCommand (command : Str)
deriving DecidableEq

/-- The scheme-stripping prelude of `_map_uri_to_params`
(tool_provider.py:190-195): strip `mcp+stdio://`, else `mcp://`, else take
the string as a bare path. -/
def stripScheme (uri : Str) : Str :=
  if schemeStdio.isPrefixOf uri then uri.drop schemeStdio.length
  else if schemeMcp.isPrefixOf uri then uri.drop schemeMcp.length
  else uri

/-- Embedding of `JITToolProvider._map_uri_to_params`
(tool_provider.py:189-207): strip the scheme, split on `/`, head segment is
the command (with the dead-code default `"echo"` of line 198 for an empty
split, which never occurs), the rest are the args; reject commands outside
the allowlist. -/
def mapUriToParams (uri : Str) : Except ResolveError StdioServerParameters :=
  let path := stripScheme uri
  let parts := splitOn '/' path
  let command := parts.headD ("echo".toList)
  let args := if parts.length > 1 then parts.drop 1 else []
  if command ∈ ALLOWED_COMMANDS then Except.ok ⟨command, args⟩
  else Except.error (ResolveError.DisallowedCommand command)

/-- A tool schema as returned by `mcp_client.get_tool_schemas`: a dict with
a `name` key (read at tool_provider.py:99); the remaining keys
(description, input schema) are opaque to the provider and collapsed into
`payload`. -/
structure Schema where
  name : Str
  payload : Nat
deriving DecidableEq

/-- A search candidate as produced by the search service: `id`,
`document`, `metadata.category` and `metadata.uri`; the Python
`candidate.get("metadata", {}).get("uri", "")` default makes a missing URI
the empty string. -/
structure Candidate where
  id : Str
  document : Str
  category : Str
  uri : Str
deriving DecidableEq

/-- The provider's mutable cache (tool_provider.py:35-38):
`_active_tools` is a Python dict `tool_name -> (schema, server_params)`
embedded as an insertion-ordered association list, and `_hydrated_uris` is
a set of URIs embedded as a duplicate-free-by-insertion list. -/
structure CacheState where
  activeTools : List (Str × Schema × StdioServerParameters)
  hydratedUris : List Str
deriving DecidableEq

/-- One transport call to the MCP client, recorded in an instrumentation
trace: a schema fetch (`get_tool_schemas`, tool_provider.py:96/125,
tagged with the origin URI being hydrated) or a tool invocation
(`execute_tool`, tool_provider.py:156). -/
inductive TransportCall (A : Type) where
  | fetchSchemas (uri : Str) (params : StdioServerParameters)
  | invoke (params : StdioServerParameters) (toolName : Str) (arguments : A)
deriving DecidableEq

/-- The external collaborators of the provider, as response oracles:
the search service, the MCP client (schema fetch, fallible; tool
execution) and the registry lookup.  `A` is the type of tool arguments,
`R` the type of transport execution results. -/
structure Env (A R : Type) where
  search : Str → Nat → List Candidate
  getToolSchemas : StdioServerParameters → Except Unit (List Schema)
  executeTool : StdioServerParameters → Str → A → R
  getToolUri : Str → Option Str

/-- Python dict assignment `d[k] = v`: update in place if the key exists
(keeping its position), else append. -/
def dictInsert (d : List (Str × Schema × StdioServerParameters)) (k : Str)
    (v : Schema × StdioServerParameters) :
    List (Str × Schema × StdioServerParameters) :=
  if d.any (fun e => decide (e.1 = k)) then
    d.map (fun e => if e.1 = k then (k, v) else e)
  else d ++ [(k, v)]

/-- Python dict lookup `d[k]` guarded by `k in d`. -/
def dictLookup (d : List (Str × Schema × StdioServerParameters)) (k : Str) :
    Option (Schema × StdioServerParameters) :=
  match d.find? (fun e => decide (e.1 = k)) with
  | none => none
  | some e => some e.2

/-- Python `set.add`. -/
def setAdd (s : List Str) (u : Str) : List Str :=
  if u ∈ s then s else s ++ [u]

/-- The cache-hit branch of `discover_and_hydrate`
(tool_provider.py:87-92): iterate over all entries of `_active_tools` in
insertion order and append each schema not already in the accumulated
result. -/
def appendCachedSchemas (active : List (Str × Schema × StdioServerParameters))
    (acc : List Schema) : List Schema :=
  active.foldl (fun acc e => if e.2.1 ∈ acc then acc else acc ++ [e.2.1]) acc

/-- The registration loop of the transport-success branch
(tool_provider.py:98-102): store every fetched schema under its own name
with the resolved server parameters. -/
def registerSchemas (active : List (Str × Schema × StdioServerParameters))
    (params : StdioServerParameters) (schemas : List Schema) :
    List (Str × Schema × StdioServerParameters) :=
  schemas.foldl (fun act sch => dictInsert act sch.name (sch, params)) active

/-- The per-candidate loop of `discover_and_hydrate`
(tool_provider.py:79-108), threading the cache state, the accumulated
result `hydrated_schemas` and the transport trace: skip candidates with no
URI; on a cache hit append the cached schemas; otherwise resolve the URI
(a resolution failure is caught and skipped), fetch the schemas (a
transport failure is caught and skipped), then register every schema,
append them to the result and mark the URI hydrated. -/
def hydrateLoop {A R : Type} (env : Env A R) :
    List Candidate → CacheState → List Schema → List (TransportCall A) →
    CacheState × List Schema × List (TransportCall A)
  | [], s, acc, tr => (s, acc, tr)
  | c :: rest, s, acc, tr =>
    if c.uri = [] then
      hydrateLoop env rest s acc tr
    else if c.uri ∈ s.hydratedUris then
      hydrateLoop env rest s (appendCachedSchemas s.activeTools acc) tr
    else
      match mapUriToParams c.uri with
      | Except.error _ => hydrateLoop env rest s acc tr
      | Except.ok params =>
        match env.getToolSchemas params with
        | Except.error _ =>
          hydrateLoop env rest s acc (tr ++ [TransportCall.fetchSchemas c.uri params])
        | Except.ok schemas =>
          hydrateLoop env rest
            ⟨registerSchemas s.activeTools params schemas,
              setAdd s.hydratedUris c.uri⟩
            (acc ++ schemas) (tr ++ [TransportCall.fetchSchemas c.uri params])

/-- Embedding of `JITToolProvider.discover_and_hydrate`
(tool_provider.py:60-110): search, return `[]` on no candidates, else run
the per-candidate loop.  Returns the hydrated schema list, the new cache
state and the transport trace. -/
def discoverAndHydrate {A R : Type} (env : Env A R) (query : Str)
    (nResults : Nat) (s : CacheState) :
    List Schema × CacheState × List (TransportCall A) :=
  let candidates := env.search query nResults
  if candidates = [] then ([], s, [])
  else
    let r := hydrateLoop env candidates s [] []
    (r.2.1, r.1, r.2.2)

/-- The registration loop of `hydrate_by_name` (tool_provider.py:127-130):
store each fetched schema under its name, and return the matching schema
as soon as it is seen — leaving the remaining schemas unregistered and,
in the caller, skipping the `_hydrated_uris.add` of line 132. -/
def registerUntilFound (active : List (Str × Schema × StdioServerParameters))
    (params : StdioServerParameters) (target : Str) :
    List Schema → List (Str × Schema × StdioServerParameters) × Option Schema
  | [] => (active, none)
  | sch :: rest =>
    let active2 := dictInsert active sch.name (sch, params)
    if sch.name = target then (active2, some sch)
    else registerUntilFound active2 params target rest

/-- Embedding of `JITToolProvider.hydrate_by_name`
(tool_provider.py:112-137): look the URI up in the registry (missing or
empty URI means a `None` result), resolve and fetch (failures are caught
and yield `None`), register fetched schemas until the requested name is
found; only when the name is not found does control reach the
`_hydrated_uris.add(uri)` of line 132. -/
def hydrateByName {A R : Type} (env : Env A R) (toolName : Str)
    (s : CacheState) :
    Option Schema × CacheState × List (TransportCall A) :=
  match env.getToolUri toolName with
  | none => (none, s, [])
  | some uri =>
    if uri = [] then (none, s, [])
    else
      match mapUriToParams uri with
      | Except.error _ => (none, s, [])
      | Except.ok params =>
        match env.getToolSchemas params with
        | Except.error _ => (none, s, [TransportCall.fetchSchemas uri params])
        | Except.ok schemas =>
          match registerUntilFound s.activeTools params toolName schemas with
          | (active2, some sch) =>
            (some sch, ⟨active2, s.hydratedUris⟩,
              [TransportCall.fetchSchemas uri params])
          | (active2, none) =>
            (none, ⟨active2, setAdd s.hydratedUris uri⟩,
              [TransportCall.fetchSchemas uri params])

/-- The failure of `execute`: the `KeyError` raised at
tool_provider.py:147-151, carrying the requested name and the list of
currently active tool names (both appear in the message). -/
inductive ExecuteError where
  | NotHydrated (toolName : Str) (activeNames : List Str)
deriving DecidableEq

/-- Embedding of `JITToolProvider.execute` (tool_provider.py:139-158):
fail with the not-hydrated error when the name is not an active tool,
else invoke the transport once with the cached server parameters and the
given arguments and return its result unchanged. -/
def execute {A R : Type} (env : Env A R) (toolName : Str) (arguments : A)
    (s : CacheState) :
    Except ExecuteError R × CacheState × List (TransportCall A) :=
  match dictLookup s.activeTools toolName with
  | none =>
    (Except.error (ExecuteError.NotHydrated toolName
        (s.activeTools.map (fun e => e.1))), s, [])
  | some (_, params) =>
    (Except.ok (env.executeTool params toolName arguments), s,
      [TransportCall.invoke params toolName arguments])

/-- A lightweight preview as built by `discover` (tool_provider.py:50-58):
the candidate's id, document, category and URI under the keys `name`,
`description`, `category`, `uri`. -/
structure Preview where
  name : Str
  description : Str
  category : Str
  uri : Str
deriving DecidableEq

/-- Embedding of `JITToolProvider.discover` (tool_provider.py:44-58):
search and project each candidate to a preview.  The method body contains
no cache assignment and no MCP client call, so the state is returned as
received and the transport trace is empty. -/
def discoverOp {A R : Type} (env : Env A R) (query : Str) (nResults : Nat)
    (s : CacheState) :
    List Preview × CacheState × List (TransportCall A) :=
  ((env.search query nResults).map
      (fun c => ⟨c.id, c.document, c.category, c.uri⟩), s, [])

/-- Embedding of `JITToolProvider.clear_tools` (tool_provider.py:172-176):
empty both cache structures. -/
def clearTools (_s : CacheState) : CacheState := ⟨[], []⟩

/-- The origins for which a transport schema fetch was issued, in call
order, read off an instrumentation trace. -/
def fetchedUris {A : Type} (tr : List (TransportCall A)) : List Str :=
  tr.filterMap (fun t => match t with
    | TransportCall.fetchSchemas u _ => some u
    | TransportCall.invoke _ _ _ => none)

/-- Whether hydrating the origin `u` fails in environment `env`: its URI
fails to resolve, or its schema fetch fails. -/
def originFetchFails {A R : Type} (env : Env A R) (u : Str) : Bool :=
  match mapUriToParams u with
  | Except.error _ => true
  | Except.ok params =>
    match env.getToolSchemas params with
    | Except.error _ => true
    | Except.ok _ => false

/-- Whether a candidate contributes nothing to `discover_and_hydrate`
started from state `s0`: it carries no URI, or its origin is neither
already hydrated nor hydratable. -/
def candidateFails {A R : Type} (env : Env A R) (s0 : CacheState)
    (c : Candidate) : Bool :=
  if c.uri = [] then true
  else if c.uri ∈ s0.hydratedUris then false
  else originFetchFails env c.uri

/-- An environment whose transport always fails and whose registry and
search are empty; used by witnesses. -/
def envTrivial : Env Nat Nat where
  search := fun _ _ => []
  getToolSchemas := fun _ => Except.error ()
  executeTool := fun _ _ _ => 0
  getToolUri := fun _ => none

/-- A candidate whose origin is the bare-path URI `echo/a`. -/
def candA : Candidate := ⟨"a".toList, [], [], "echo/a".toList⟩

/-- A candidate whose origin is the bare-path URI `echo/b`. -/
def candB : Candidate := ⟨"b".toList, [], [], "echo/b".toList⟩

/-- A schema served by the origin `echo/a`. -/
def schemaA : Schema := ⟨"ta".toList, 0⟩

/-- A schema served by the origin `echo/b`. -/
def schemaB : Schema := ⟨"tb".toList, 0⟩

/-- An environment whose search returns `[candA, candB]` for the query
`one` and `[candA]` otherwise, and whose transport serves `schemaA` for
the descriptor of `echo/a` and `schemaB` for every other descriptor. -/
def envCacheHit : Env Nat Nat where
  search := fun q _ => if q = "one".toList then [candA, candB] else [candA]
  getToolSchemas := fun p =>
    if p.args = ["a".toList] then Except.ok [schemaA] else Except.ok [schemaB]
  executeTool := fun _ _ _ => 0
  getToolUri := fun _ => none

/-- An environment whose registry maps every name to the URI `echo/x` and
whose transport serves a single schema named `t`. -/
def envHydrateBug : Env Nat Nat where
  search := fun _ _ => []
  getToolSchemas := fun _ => Except.ok [⟨"t".toList, 0⟩]
  executeTool := fun _ _ _ => 0
  getToolUri := fun _ => some ("echo/x".toList)

/-- An environment whose search always returns `[candA]` and whose
transport serves `[schemaA]`. -/
def envOnce : Env Nat Nat where
  search := fun _ _ => [candA]
  getToolSchemas := fun _ => Except.ok [schemaA]
  executeTool := fun _ _ _ => 0
  getToolUri := fun _ => none

/-- A one-entry cache used by witnesses. -/
def stateOneTool : CacheState :=
  ⟨[("t".toList, ⟨"t".toList, 0⟩, ⟨"echo".toList, []⟩)], []⟩

/-! ### Elementary facts about `splitOn` and scheme stripping -/

theorem splitOn_ne_nil (sep : Char) (l : Str) : splitOn sep l ≠ [] := by
  induction l with
  | nil => simp [splitOn]
  | cons c cs ih =>
    unfold splitOn
    cases h : splitOn sep cs with
    | nil => exact absurd h ih
    | cons s rest =>
      by_cases hc : c = sep <;> simp [hc]

theorem splitOn_not_mem (sep : Char) (xs : Str) (h : sep ∉ xs) :
    splitOn sep xs = [xs] := by
  induction xs with
  | nil => rfl
  | cons c cs ih =>
    have hc : ¬ c = sep := fun e => h (e ▸ List.mem_cons_self c cs)
    have hcs : sep ∉ cs := fun hm => h (List.mem_cons_of_mem _ hm)
    unfold splitOn
    rw [ih hcs]
    simp [hc]

theorem splitOn_append (sep : Char) (xs ys : Str) (h : sep ∉ xs) :
    splitOn sep (xs ++ sep :: ys) = xs :: splitOn sep ys := by
  induction xs with
  | nil =>
    simp only [List.nil_append]
    simp only [splitOn]
    cases hy : splitOn sep ys with
    | nil => exact absurd hy (splitOn_ne_nil sep ys)
    | cons s rest => simp
  | cons c cs ih =>
    have hc : ¬ c = sep := fun e => h (e ▸ List.mem_cons_self c cs)
    have hcs : sep ∉ cs := fun hm => h (List.mem_cons_of_mem _ hm)
    simp only [List.cons_append]
    simp only [splitOn]
    rw [ih hcs]
    simp [hc]

theorem isPrefixOf_append_self : ∀ (p x : Str), p.isPrefixOf (p ++ x) = true
  | [], _ => by simp
  | c :: p, x => by
    simp [List.isPrefixOf_cons₂, isPrefixOf_append_self p x]

theorem stripScheme_stdio (x : Str) : stripScheme (schemeStdio ++ x) = x := by
  unfold stripScheme
  rw [isPrefixOf_append_self]
  simp [List.drop_left]

theorem not_stdio_isPrefixOf_mcp (x : Str) :
    schemeStdio.isPrefixOf (schemeMcp ++ x) = false := by
  show List.isPrefixOf ('m' :: 'c' :: 'p' :: '+' :: ("stdio://".toList))
    ('m' :: 'c' :: 'p' :: ':' :: '/' :: '/' :: x) = false
  simp [List.isPrefixOf_cons₂]

theorem stripScheme_mcp (x : Str) : stripScheme (schemeMcp ++ x) = x := by
  unfold stripScheme
  rw [not_stdio_isPrefixOf_mcp, isPrefixOf_append_self]
  simp [List.drop_left]

theorem stripScheme_bare (u : Str)
    (h1 : schemeStdio.isPrefixOf u = false)
    (h2 : schemeMcp.isPrefixOf u = false) :
    stripScheme u = u := by
  unfold stripScheme
  rw [h1, h2]
  simp

/-- Resolution of a URI whose stripped path is an allowlisted command
followed by a slash and a remainder: descriptor command is the command,
args are the split remainder. -/
theorem mapUriToParams_of_strip (uri cmd rest : Str)
    (hstrip : stripScheme uri = cmd ++ '/' :: rest)
    (hmem : cmd ∈ ALLOWED_COMMANDS) (hsl : '/' ∉ cmd) :
    mapUriToParams uri = Except.ok ⟨cmd, splitOn '/' rest⟩ := by
  have hS : splitOn '/' rest ≠ [] := splitOn_ne_nil '/' rest
  have hlen : (cmd :: splitOn '/' rest).length > 1 := by
    have := List.length_pos.mpr hS
    simp only [List.length_cons]
    omega
  simp only [mapUriToParams, hstrip, splitOn_append '/' cmd rest hsl,
    List.headD_cons]
  rw [if_pos hmem, if_pos hlen]
  simp

/-- Resolution of a URI whose stripped path is exactly an allowlisted
command: descriptor command is the command, args are empty. -/
theorem mapUriToParams_of_strip_bare (uri cmd : Str)
    (hstrip : stripScheme uri = cmd)
    (hmem : cmd ∈ ALLOWED_COMMANDS) (hsl : '/' ∉ cmd) :
    mapUriToParams uri = Except.ok ⟨cmd, []⟩ := by
  simp only [mapUriToParams, hstrip, splitOn_not_mem '/' cmd hsl,
    List.headD_cons]
  rw [if_pos hmem]
  simp

theorem isPrefixOf_cons_false (a b : Char) (as bs : Str) (h : (a == b) = false) :
    (a :: as).isPrefixOf (b :: bs) = false := by
  simp [List.isPrefixOf_cons₂, h]

/-! ### Elementary facts about the cache structures -/

theorem mem_setAdd {s : List Str} {u v : Str} :
    v ∈ setAdd s u ↔ v ∈ s ∨ v = u := by
  unfold setAdd
  by_cases h : u ∈ s
  · rw [if_pos h]
    constructor
    · exact Or.inl
    · rintro (hv | rfl)
      · exact hv
      · exact h
  · rw [if_neg h]
    simp

theorem subset_setAdd (s : List Str) (u : Str) : s ⊆ setAdd s u :=
  fun _ hx => mem_setAdd.mpr (Or.inl hx)

theorem fetchedUris_append {A : Type} (t1 t2 : List (TransportCall A)) :
    fetchedUris (t1 ++ t2) = fetchedUris t1 ++ fetchedUris t2 :=
  List.filterMap_append t1 t2 _

theorem dictLookup_eq_none_iff (d : List (Str × Schema × StdioServerParameters))
    (k : Str) :
    dictLookup d k = none ↔ k ∉ d.map (fun e => e.1) := by
  unfold dictLookup
  constructor
  · intro h hk
    rcases List.mem_map.mp hk with ⟨e, he, hek⟩
    cases hf : d.find? (fun e => decide (e.1 = k)) with
    | none =>
      have hnone := List.find?_eq_none.mp hf e he
      simp [hek] at hnone
    | some e2 =>
      rw [hf] at h
      simp at h
  · intro hk
    cases hf : d.find? (fun e => decide (e.1 = k)) with
    | none => rfl
    | some e2 =>
      have hmem := List.mem_of_find?_eq_some hf
      have hp := List.find?_some hf
      simp only [decide_eq_true_eq] at hp
      exact absurd (List.mem_map.mpr ⟨e2, hmem, hp⟩) hk

/-! ### Behaviour of the hydration loop across candidates -/

/-- The set of hydrated URIs only grows during the hydration loop. -/
theorem hydratedUris_mono {A R : Type} (env : Env A R) :
    ∀ (cands : List Candidate) (s : CacheState) (acc : List Schema)
      (tr : List (TransportCall A)),
    s.hydratedUris ⊆ (hydrateLoop env cands s acc tr).1.hydratedUris
  | [], _, _, _ => fun _ hx => hx
  | c :: rest, s, acc, tr => by
    by_cases hc : c.uri = []
    · simp only [hydrateLoop, if_pos hc]
      exact hydratedUris_mono env rest s acc tr
    · by_cases hh : c.uri ∈ s.hydratedUris
      · simp only [hydrateLoop, if_neg hc, if_pos hh]
        exact hydratedUris_mono env rest s _ tr
      · cases hres : mapUriToParams c.uri with
        | error e =>
          simp only [hydrateLoop, if_neg hc, if_neg hh, hres]
          exact hydratedUris_mono env rest s acc tr
        | ok params =>
          cases hf : env.getToolSchemas params with
          | error e =>
            simp only [hydrateLoop, if_neg hc, if_neg hh, hres, hf]
            exact hydratedUris_mono env rest s acc _
          | ok schemas =>
            simp only [hydrateLoop, if_neg hc, if_neg hh, hres, hf]
            intro x hx
            exact hydratedUris_mono env rest
              ⟨registerSchemas s.activeTools params schemas,
                setAdd s.hydratedUris c.uri⟩
              (acc ++ schemas) (tr ++ [TransportCall.fetchSchemas c.uri params])
              (mem_setAdd.mpr (Or.inl hx))

/-- While an origin is in the hydrated set, the loop issues no further
schema fetch for it: the count of its fetches in the final trace equals
its count in the incoming trace. -/
theorem no_fetch_of_hydrated {A R : Type} (env : Env A R) :
    ∀ (cands : List Candidate) (s : CacheState) (acc : List Schema)
      (tr : List (TransportCall A)) (u : Str), u ∈ s.hydratedUris →
    (fetchedUris (hydrateLoop env cands s acc tr).2.2).count u =
      (fetchedUris tr).count u
  | [], _, _, _, _, _ => rfl
  | c :: rest, s, acc, tr, u, hu => by
    by_cases hc : c.uri = []
    · simp only [hydrateLoop, if_pos hc]
      exact no_fetch_of_hydrated env rest s acc tr u hu
    · by_cases hh : c.uri ∈ s.hydratedUris
      · simp only [hydrateLoop, if_neg hc, if_pos hh]
        exact no_fetch_of_hydrated env rest s _ tr u hu
      · have hne : ¬ (c.uri = u) := fun e => hh (e ▸ hu)
        have hne2 : ¬ (u = c.uri) := fun e => hne e.symm
        cases hres : mapUriToParams c.uri with
        | error e =>
          simp only [hydrateLoop, if_neg hc, if_neg hh, hres]
          exact no_fetch_of_hydrated env rest s acc tr u hu
        | ok params =>
          cases hf : env.getToolSchemas params with
          | error e =>
            simp only [hydrateLoop, if_neg hc, if_neg hh, hres, hf]
            rw [no_fetch_of_hydrated env rest s acc
              (tr ++ [TransportCall.fetchSchemas c.uri params]) u hu,
              fetchedUris_append, List.count_append]
            simp [fetchedUris, List.count_cons, hne2]
          | ok schemas =>
            simp only [hydrateLoop, if_neg hc, if_neg hh, hres, hf]
            rw [no_fetch_of_hydrated env rest
              ⟨registerSchemas s.activeTools params schemas,
                setAdd s.hydratedUris c.uri⟩
              (acc ++ schemas) (tr ++ [TransportCall.fetchSchemas c.uri params])
              u (mem_setAdd.mpr (Or.inl hu)),
              fetchedUris_append, List.count_append]
            simp [fetchedUris, List.count_cons, hne2]

/-- If some candidate carries a not-yet-hydrated origin `u` whose
resolution and fetch succeed, the loop fetches `u` exactly once more and
ends with `u` hydrated. -/
theorem fetch_once {A R : Type} (env : Env A R) :
    ∀ (cands : List Candidate) (s : CacheState) (acc : List Schema)
      (tr : List (TransportCall A)) (u : Str)
      (params : StdioServerParameters) (schemas : List Schema),
    u ∉ s.hydratedUris →
    (∃ c ∈ cands, c.uri = u) →
    mapUriToParams u = Except.ok params →
    env.getToolSchemas params = Except.ok schemas →
    (fetchedUris (hydrateLoop env cands s acc tr).2.2).count u =
      (fetchedUris tr).count u + 1 ∧
    u ∈ (hydrateLoop env cands s acc tr).1.hydratedUris
  | [], s, acc, tr, u, params, schemas => by
    intro _ hex _ _
    rcases hex with ⟨c, hc, _⟩
    exact absurd hc (List.not_mem_nil c)
  | c :: rest, s, acc, tr, u, params, schemas => by
    intro hu hex hres hf
    by_cases hcu : c.uri = u
    · have hunil : ¬ (u = ([] : Str)) := by
        intro h0
        rw [h0] at hres
        have hval : mapUriToParams ([] : Str) =
            Except.error (ResolveError.DisallowedCommand []) := rfl
        rw [hval] at hres
        exact absurd hres (by simp)
      have hcnil : ¬ (c.uri = []) := fun h0 => hunil (hcu.symm.trans h0)
      have hch : ¬ (c.uri ∈ s.hydratedUris) := fun hm => hu (hcu ▸ hm)
      have hres2 : mapUriToParams c.uri = Except.ok params := by
        rw [hcu]
        exact hres
      simp only [hydrateLoop, if_neg hcnil, if_neg hch, hres2, hf]
      rw [hcu]
      have hu2 : u ∈ setAdd s.hydratedUris u := mem_setAdd.mpr (Or.inr rfl)
      constructor
      · rw [no_fetch_of_hydrated env rest
          ⟨registerSchemas s.activeTools params schemas,
            setAdd s.hydratedUris u⟩
          (acc ++ schemas) (tr ++ [TransportCall.fetchSchemas u params]) u hu2,
          fetchedUris_append, List.count_append]
        simp [fetchedUris, List.count_cons]
      · exact hydratedUris_mono env rest
          ⟨registerSchemas s.activeTools params schemas,
            setAdd s.hydratedUris u⟩
          (acc ++ schemas) (tr ++ [TransportCall.fetchSchemas u params]) hu2
    · have hex2 : ∃ c2 ∈ rest, c2.uri = u := by
        rcases hex with ⟨c0, hc0, hc0u⟩
        rcases List.mem_cons.mp hc0 with rfl | hmem
        · exact absurd hc0u hcu
        · exact ⟨c0, hmem, hc0u⟩
      have hcu2 : ¬ (u = c.uri) := fun e => hcu e.symm
      by_cases hc : c.uri = []
      · simp only [hydrateLoop, if_pos hc]
        exact fetch_once env rest s acc tr u params schemas hu hex2 hres hf
      · by_cases hh : c.uri ∈ s.hydratedUris
        · simp only [hydrateLoop, if_neg hc, if_pos hh]
          exact fetch_once env rest s _ tr u params schemas hu hex2 hres hf
        · cases hres2 : mapUriToParams c.uri with
          | error e =>
            simp only [hydrateLoop, if_neg hc, if_neg hh, hres2]
            exact fetch_once env rest s acc tr u params schemas hu hex2 hres hf
          | ok p2 =>
            cases hf2 : env.getToolSchemas p2 with
            | error e =>
              simp only [hydrateLoop, if_neg hc, if_neg hh, hres2, hf2]
              have h0 := fetch_once env rest s acc
                (tr ++ [TransportCall.fetchSchemas c.uri p2]) u params schemas
                hu hex2 hres hf
              refine ⟨?_, h0.2⟩
              rw [h0.1, fetchedUris_append, List.count_append]
              simp [fetchedUris, List.count_cons, hcu2]
            | ok schemas2 =>
              have hu2 : u ∉ setAdd s.hydratedUris c.uri := by
                intro hm
                rcases mem_setAdd.mp hm with h1 | h1
                · exact hu h1
                · exact hcu h1.symm
              simp only [hydrateLoop, if_neg hc, if_neg hh, hres2, hf2]
              have h0 := fetch_once env rest
                ⟨registerSchemas s.activeTools p2 schemas2,
                  setAdd s.hydratedUris c.uri⟩
                (acc ++ schemas2) (tr ++ [TransportCall.fetchSchemas c.uri p2])
                u params schemas hu2 hex2 hres hf
              refine ⟨?_, h0.2⟩
              rw [h0.1, fetchedUris_append, List.count_append]
              simp [fetchedUris, List.count_cons, hcu2]

/-- A full `discover_and_hydrate` call issues no schema fetch for an
origin already in the hydrated set. -/
theorem discoverAndHydrate_count_zero {A R : Type} (env : Env A R)
    (q : Str) (n : Nat) (s : CacheState) (u : Str)
    (hu : u ∈ s.hydratedUris) :
    (fetchedUris (discoverAndHydrate env q n s).2.2).count u = 0 := by
  by_cases h : env.search q n = []
  · simp only [discoverAndHydrate]
    rw [if_pos h]
    rfl
  · simp only [discoverAndHydrate]
    rw [if_neg h]
    exact (no_fetch_of_hydrated env (env.search q n) s [] [] u hu).trans rfl

theorem originFetchFails_resolve {A R : Type} (env : Env A R) (u : Str)
    (e : ResolveError) (h : mapUriToParams u = Except.error e) :
    originFetchFails env u = true := by
  unfold originFetchFails
  rw [h]

theorem originFetchFails_fetch_error {A R : Type} (env : Env A R) (u : Str)
    (p : StdioServerParameters) (e : Unit)
    (hres : mapUriToParams u = Except.ok p)
    (hf : env.getToolSchemas p = Except.error e) :
    originFetchFails env u = true := by
  simp only [originFetchFails, hres, hf]

theorem originFetchFails_ok {A R : Type} (env : Env A R) (u : Str)
    (p : StdioServerParameters) (schemas : List Schema)
    (hres : mapUriToParams u = Except.ok p)
    (hf : env.getToolSchemas p = Except.ok schemas) :
    originFetchFails env u = false := by
  simp only [originFetchFails, hres, hf]

/-- Running the hydration loop on the candidates that do not fail is
state- and result-equivalent to running it on all candidates, provided
every hydrated origin of the start state was already hydrated in `s0` or
is hydratable. -/
theorem hydrateLoop_filter {A R : Type} (env : Env A R) (s0 : CacheState) :
    ∀ (cands : List Candidate) (s : CacheState) (acc : List Schema)
      (tr tr2 : List (TransportCall A)),
    s0.hydratedUris ⊆ s.hydratedUris →
    (∀ u ∈ s.hydratedUris,
      u ∈ s0.hydratedUris ∨ originFetchFails env u = false) →
    (hydrateLoop env (cands.filter (fun c => !(candidateFails env s0 c)))
        s acc tr2).1 =
      (hydrateLoop env cands s acc tr).1 ∧
    (hydrateLoop env (cands.filter (fun c => !(candidateFails env s0 c)))
        s acc tr2).2.1 =
      (hydrateLoop env cands s acc tr).2.1
  | [], _, _, _, _ => fun _ _ => ⟨rfl, rfl⟩
  | c :: rest, s, acc, tr, tr2 => by
    intro hsub hinv
    by_cases hc : c.uri = []
    · have hdrop : ¬ ((!(candidateFails env s0 c)) = true) := by
        unfold candidateFails
        rw [if_pos hc]
        simp
      rw [@List.filter_cons_of_neg _ (fun c2 => !(candidateFails env s0 c2)) c rest hdrop]
      simp only [hydrateLoop, if_pos hc]
      exact hydrateLoop_filter env s0 rest s acc tr tr2 hsub hinv
    · by_cases hh : c.uri ∈ s.hydratedUris
      · have hfc : candidateFails env s0 c = false := by
          unfold candidateFails
          rw [if_neg hc]
          rcases hinv c.uri hh with h1 | h1
          · rw [if_pos h1]
          · by_cases h2 : c.uri ∈ s0.hydratedUris
            · rw [if_pos h2]
            · rw [if_neg h2]
              exact h1
        have hkeep : (!(candidateFails env s0 c)) = true := by
          rw [hfc]
          rfl
        rw [@List.filter_cons_of_pos _ (fun c2 => !(candidateFails env s0 c2)) c rest hkeep]
        simp only [hydrateLoop, if_neg hc, if_pos hh]
        exact hydrateLoop_filter env s0 rest s _ tr tr2 hsub hinv
      · have hns0 : ¬ (c.uri ∈ s0.hydratedUris) := fun hm => hh (hsub hm)
        cases hres : mapUriToParams c.uri with
        | error e =>
          have hof : originFetchFails env c.uri = true :=
            originFetchFails_resolve env c.uri e hres
          have hdrop : ¬ ((!(candidateFails env s0 c)) = true) := by
            unfold candidateFails
            rw [if_neg hc, if_neg hns0, hof]
            simp
          rw [@List.filter_cons_of_neg _ (fun c2 => !(candidateFails env s0 c2)) c rest hdrop]
          simp only [hydrateLoop, if_neg hc, if_neg hh, hres]
          exact hydrateLoop_filter env s0 rest s acc tr tr2 hsub hinv
        | ok p2 =>
          cases hf2 : env.getToolSchemas p2 with
          | error e =>
            have hof : originFetchFails env c.uri = true :=
              originFetchFails_fetch_error env c.uri p2 e hres hf2
            have hdrop : ¬ ((!(candidateFails env s0 c)) = true) := by
              unfold candidateFails
              rw [if_neg hc, if_neg hns0, hof]
              simp
            rw [@List.filter_cons_of_neg _ (fun c2 => !(candidateFails env s0 c2)) c rest hdrop]
            simp only [hydrateLoop, if_neg hc, if_neg hh, hres, hf2]
            exact hydrateLoop_filter env s0 rest s acc
              (tr ++ [TransportCall.fetchSchemas c.uri p2]) tr2 hsub hinv
          | ok schemas2 =>
            have hof : originFetchFails env c.uri = false :=
              originFetchFails_ok env c.uri p2 schemas2 hres hf2
            have hkeep : (!(candidateFails env s0 c)) = true := by
              unfold candidateFails
              rw [if_neg hc, if_neg hns0, hof]
              rfl
            rw [@List.filter_cons_of_pos _ (fun c2 => !(candidateFails env s0 c2)) c rest hkeep]
            simp only [hydrateLoop, if_neg hc, if_neg hh, hres, hf2]
            exact hydrateLoop_filter env s0 rest
              ⟨registerSchemas s.activeTools p2 schemas2,
                setAdd s.hydratedUris c.uri⟩
              (acc ++ schemas2)
              (tr ++ [TransportCall.fetchSchemas c.uri p2])
              (tr2 ++ [TransportCall.fetchSchemas c.uri p2])
              (hsub.trans (subset_setAdd s.hydratedUris c.uri))
              (by
                intro u hu
                rcases mem_setAdd.mp hu with h1 | h1
                · exact hinv u h1
                · exact Or.inr (by rw [h1]; exact hof))

/-! ### Claims -/

/-- C1: for every URI whose first path segment (after stripping a
recognized scheme prefix, or taken from the bare path) is not in
`ALLOWED_COMMANDS`, `_map_uri_to_params` fails with the
disallowed-command error, regardless of the remaining path content, and no
descriptor is returned. -/
theorem resolve_disallowed_command (uri : Str)
    (h : (splitOn '/' (stripScheme uri)).headD ("echo".toList) ∉ ALLOWED_COMMANDS) :
    mapUriToParams uri =
      Except.error (ResolveError.DisallowedCommand
        ((splitOn '/' (stripScheme uri)).headD ("echo".toList))) := by
  simp only [mapUriToParams]
  rw [if_neg h]

/-- Witness for C1 at the URI `mcp+stdio://rm/x`: the segment `rm` is
outside the allowlist, so resolution fails with the disallowed-command
error. -/
theorem resolve_disallowed_command_witness :
    mapUriToParams ("mcp+stdio://rm/x".toList) =
      Except.error (ResolveError.DisallowedCommand
        ((splitOn '/' (stripScheme ("mcp+stdio://rm/x".toList))).headD ("echo".toList))) :=
  resolve_disallowed_command ("mcp+stdio://rm/x".toList) (by decide)

/-- C6: for every allowlisted command token, resolution returns a
descriptor whose command is that token and whose argument vector is the
remaining slash-separated path segments in order, identically for the
`mcp+stdio://` prefix, the `mcp://` prefix, and a bare path with no
prefix (both with a nonempty remainder and with the command alone). -/
theorem resolve_allowed_all_schemes (cmd : Str)
    (hmem : cmd ∈ ALLOWED_COMMANDS) (rest : Str) :
    mapUriToParams (schemeStdio ++ (cmd ++ '/' :: rest)) =
        Except.ok ⟨cmd, splitOn '/' rest⟩ ∧
    mapUriToParams (schemeMcp ++ (cmd ++ '/' :: rest)) =
        Except.ok ⟨cmd, splitOn '/' rest⟩ ∧
    mapUriToParams (cmd ++ '/' :: rest) =
        Except.ok ⟨cmd, splitOn '/' rest⟩ ∧
    mapUriToParams (schemeStdio ++ cmd) = Except.ok ⟨cmd, []⟩ ∧
    mapUriToParams (schemeMcp ++ cmd) = Except.ok ⟨cmd, []⟩ ∧
    mapUriToParams cmd = Except.ok ⟨cmd, []⟩ := by
  simp only [ALLOWED_COMMANDS, List.mem_cons, List.not_mem_nil, or_false] at hmem
  rcases hmem with rfl | rfl | rfl | rfl | rfl | rfl | rfl | rfl | rfl | rfl <;>
    exact ⟨mapUriToParams_of_strip _ _ _ (stripScheme_stdio _) (by decide) (by decide),
      mapUriToParams_of_strip _ _ _ (stripScheme_mcp _) (by decide) (by decide),
      mapUriToParams_of_strip _ _ _
        (stripScheme_bare _ (isPrefixOf_cons_false _ _ _ _ (by decide))
          (isPrefixOf_cons_false _ _ _ _ (by decide))) (by decide) (by decide),
      mapUriToParams_of_strip_bare _ _ (stripScheme_stdio _) (by decide) (by decide),
      mapUriToParams_of_strip_bare _ _ (stripScheme_mcp _) (by decide) (by decide),
      mapUriToParams_of_strip_bare _ _
        (stripScheme_bare _ (isPrefixOf_cons_false _ _ _ _ (by decide))
          (isPrefixOf_cons_false _ _ _ _ (by decide))) (by decide) (by decide)⟩

/-- Witness for C6 at the allowlisted command `npx` with remainder `-y`. -/
theorem resolve_allowed_all_schemes_witness :
    mapUriToParams (schemeStdio ++ ("npx".toList ++ '/' :: "-y".toList)) =
      Except.ok ⟨"npx".toList, splitOn '/' ("-y".toList)⟩ :=
  (resolve_allowed_all_schemes ("npx".toList) (by decide) ("-y".toList)).1

/-- C8 counterexample: the empty URI yields the empty command token, and
resolution fails with the disallowed-command error rather than a distinct
malformed-URI failure (`ResolveError` has no such constructor: the source
raises only the `ValueError` of tool_provider.py:202). -/
theorem malformed_uri_counterexample :
    mapUriToParams [] = Except.error (ResolveError.DisallowedCommand []) := rfl

/-- C8 amended: splitting always yields a first segment, so every URI
yields a command token (possibly empty), and every resolution failure is
the disallowed-command error carrying that first segment; no distinct
malformed-URI failure exists. -/
theorem resolve_no_malformed_error (uri : Str) (e : ResolveError)
    (h : mapUriToParams uri = Except.error e) :
    splitOn '/' (stripScheme uri) ≠ [] ∧
    e = ResolveError.DisallowedCommand
      ((splitOn '/' (stripScheme uri)).headD ("echo".toList)) := by
  refine ⟨splitOn_ne_nil _ _, ?_⟩
  simp only [mapUriToParams] at h
  by_cases hm :
      (splitOn '/' (stripScheme uri)).headD ("echo".toList) ∈ ALLOWED_COMMANDS
  · rw [if_pos hm] at h
    exact absurd h (by simp)
  · rw [if_neg hm] at h
    injection h with h2
    exact h2.symm

/-- Witness for C8's amended theorem at the empty URI. -/
theorem resolve_no_malformed_error_witness :
    splitOn '/' (stripScheme []) ≠ [] ∧
    (ResolveError.DisallowedCommand [] : ResolveError) =
      ResolveError.DisallowedCommand
        ((splitOn '/' (stripScheme [])).headD ("echo".toList)) :=
  resolve_no_malformed_error [] (ResolveError.DisallowedCommand []) rfl

/-- C9: for every query and limit, `discover` leaves the cache state
unchanged, issues no transport call, and only projects each search
candidate into a preview with the candidate's id, document, category and
URI. -/
theorem discover_pure {A R : Type} (env : Env A R) (query : Str) (n : Nat)
    (s : CacheState) :
    (discoverOp env query n s).2.1 = s ∧
    (discoverOp env query n s).2.2 = [] ∧
    (discoverOp env query n s).1 =
      (env.search query n).map (fun c => ⟨c.id, c.document, c.category, c.uri⟩) :=
  ⟨rfl, rfl, rfl⟩

/-- C5: `execute` fails with the not-hydrated error — carrying the
requested name and the current active tool names — exactly when the name
is not an active tool; when it is, it invokes the transport once with the
cached descriptor and the given arguments and returns the transport
result unchanged, leaving the state untouched. -/
theorem execute_spec {A R : Type} (env : Env A R) (s : CacheState)
    (toolName : Str) (arguments : A) :
    ((execute env toolName arguments s).1 =
        Except.error (ExecuteError.NotHydrated toolName
          (s.activeTools.map (fun e => e.1)))
      ↔ toolName ∉ s.activeTools.map (fun e => e.1)) ∧
    (∀ sch params, dictLookup s.activeTools toolName = some (sch, params) →
      execute env toolName arguments s =
        (Except.ok (env.executeTool params toolName arguments), s,
          [TransportCall.invoke params toolName arguments])) := by
  constructor
  · constructor
    · intro h
      cases hf : dictLookup s.activeTools toolName with
      | none => exact (dictLookup_eq_none_iff _ _).mp hf
      | some v =>
        obtain ⟨sch, params⟩ := v
        unfold execute at h
        rw [hf] at h
        simp at h
    · intro h
      have hf := (dictLookup_eq_none_iff s.activeTools toolName).mpr h
      unfold execute
      rw [hf]
  · intro sch params hf
    unfold execute
    rw [hf]

/-- Witness for C5: on a cache holding the tool `t`, `execute` invokes the
transport once and returns its result; the name `missing` is rejected with
the not-hydrated error. -/
theorem execute_spec_witness :
    execute envTrivial ("t".toList) 7 stateOneTool =
      (Except.ok (envTrivial.executeTool ⟨"echo".toList, []⟩ ("t".toList) 7),
        stateOneTool,
        [TransportCall.invoke ⟨"echo".toList, []⟩ ("t".toList) 7]) ∧
    (execute envTrivial ("missing".toList) 7 stateOneTool).1 =
      Except.error (ExecuteError.NotHydrated ("missing".toList)
        (stateOneTool.activeTools.map (fun e => e.1))) :=
  ⟨(execute_spec envTrivial stateOneTool ("t".toList) 7).2
      ⟨"t".toList, 0⟩ ⟨"echo".toList, []⟩ rfl,
    (execute_spec envTrivial stateOneTool ("missing".toList) 7).1.mpr (by decide)⟩

/-- C2: evaluation of `hydrate_by_name` at a concrete input exhibiting
the broken invariant: from the empty cache, with the registry mapping `t`
to `echo/x` and the transport serving one schema named `t`, the call
returns the found schema and registers it in `_active_tools`, but — the
`return schema` of tool_provider.py:130 precedes the
`_hydrated_uris.add(uri)` of line 132 — the origin is left outside
`_hydrated_uris`. -/
theorem hydrate_by_name_breaks_origin_invariant :
    (hydrateByName envHydrateBug ("t".toList) ⟨[], []⟩).1 =
      some ⟨"t".toList, 0⟩ ∧
    ((hydrateByName envHydrateBug ("t".toList) ⟨[], []⟩).2.1.activeTools.map
        (fun e => e.1)) = ["t".toList] ∧
    (hydrateByName envHydrateBug ("t".toList) ⟨[], []⟩).2.1.hydratedUris = [] := by
  refine ⟨rfl, by decide, rfl⟩

/-- C3: evaluation of `discover_and_hydrate` at a concrete input
exhibiting the cache-hit branch returning schemas of other origins: after
one call hydrates `echo/a` (serving `schemaA`) and `echo/b` (serving
`schemaB`), a second call whose only candidate's origin is `echo/a` takes
the cache-hit branch, makes no transport call, and returns `schemaB` as
well — a schema whose cached descriptor is that of `echo/b`, not of
`echo/a`. -/
theorem cache_hit_returns_foreign_schemas :
    mapUriToParams candA.uri = Except.ok ⟨"echo".toList, ["a".toList]⟩ ∧
    (discoverAndHydrate envCacheHit ("one".toList) 5 ⟨[], []⟩).2.1.activeTools =
      [("ta".toList, schemaA, ⟨"echo".toList, ["a".toList]⟩),
       ("tb".toList, schemaB, ⟨"echo".toList, ["b".toList]⟩)] ∧
    (discoverAndHydrate envCacheHit ("two".toList) 5
        (discoverAndHydrate envCacheHit ("one".toList) 5 ⟨[], []⟩).2.1).1 =
      [schemaA, schemaB] ∧
    (discoverAndHydrate envCacheHit ("two".toList) 5
        (discoverAndHydrate envCacheHit ("one".toList) 5 ⟨[], []⟩).2.1).2.2 =
      [] := by
  refine ⟨rfl, by decide, by decide, rfl⟩

/-- C10: a candidate whose processing fails — URI resolution raises, or
the transport schema fetch raises — leaves the cache state and the
accumulated result exactly as they were before that candidate, and the
loop continues with the remaining candidates from that same state. -/
theorem hydrate_failure_atomic {A R : Type} (env : Env A R) (c : Candidate)
    (rest : List Candidate) (s : CacheState) (acc : List Schema)
    (tr : List (TransportCall A))
    (hnc : c.uri ∉ s.hydratedUris)
    (hfail : (∃ e, mapUriToParams c.uri = Except.error e) ∨
      (∃ params, mapUriToParams c.uri = Except.ok params ∧
        env.getToolSchemas params = Except.error ())) :
    (hydrateLoop env [c] s acc tr).1 = s ∧
    (hydrateLoop env [c] s acc tr).2.1 = acc ∧
    hydrateLoop env (c :: rest) s acc tr =
      hydrateLoop env rest s acc ((hydrateLoop env [c] s acc tr).2.2) := by
  by_cases hc : c.uri = []
  · simp only [hydrateLoop, if_pos hc]
    refine ⟨?_, ?_, ?_⟩ <;> trivial
  · rcases hfail with ⟨e, he⟩ | ⟨params, hp, hf⟩
    · simp only [hydrateLoop, if_neg hc, if_neg hnc, he]
      refine ⟨?_, ?_, ?_⟩ <;> trivial
    · simp only [hydrateLoop, if_neg hc, if_neg hnc, hp, hf]
      refine ⟨?_, ?_, ?_⟩ <;> trivial

/-- Witness for C10 at a candidate whose schema fetch fails: the cache
state and accumulator are unchanged. -/
theorem hydrate_failure_atomic_witness :
    (hydrateLoop envTrivial [candA] ⟨[], []⟩ [] []).1 = (⟨[], []⟩ : CacheState) ∧
    (hydrateLoop envTrivial [candA] ⟨[], []⟩ [] []).2.1 = ([] : List Schema) := by
  have h := hydrate_failure_atomic envTrivial candA [] ⟨[], []⟩ [] []
    (by simp)
    (Or.inr ⟨⟨"echo".toList, ["a".toList]⟩, rfl, rfl⟩)
  exact ⟨h.1, h.2.1⟩

/-- C4: when some candidate of the first call carries a not-yet-hydrated
origin `u` that resolves and fetches successfully, two successive
`discover_and_hydrate` calls issue exactly one schema fetch for `u`
between them: the first call fetches it once and records it as hydrated,
and the second call — whatever its query returns — issues none. -/
theorem hydrate_idempotent {A R : Type} (env : Env A R) (q1 q2 : Str)
    (n1 n2 : Nat) (s0 : CacheState) (u : Str)
    (params : StdioServerParameters) (schemas : List Schema)
    (hu : u ∉ s0.hydratedUris)
    (hex : ∃ c ∈ env.search q1 n1, c.uri = u)
    (hres : mapUriToParams u = Except.ok params)
    (hf : env.getToolSchemas params = Except.ok schemas) :
    u ∈ (discoverAndHydrate env q1 n1 s0).2.1.hydratedUris ∧
    (fetchedUris ((discoverAndHydrate env q1 n1 s0).2.2 ++
      (discoverAndHydrate env q2 n2
        (discoverAndHydrate env q1 n1 s0).2.1).2.2)).count u = 1 := by
  have hne : ¬ (env.search q1 n1 = []) := by
    rcases hex with ⟨c, hc, _⟩
    intro h0
    rw [h0] at hc
    exact absurd hc (List.not_mem_nil c)
  have h1 := fetch_once env (env.search q1 n1) s0 [] [] u params schemas
    hu hex hres hf
  have e1 : discoverAndHydrate env q1 n1 s0 =
      ((hydrateLoop env (env.search q1 n1) s0 [] []).2.1,
        (hydrateLoop env (env.search q1 n1) s0 [] []).1,
        (hydrateLoop env (env.search q1 n1) s0 [] []).2.2) := by
    simp only [discoverAndHydrate]
    rw [if_neg hne]
  have hmem : u ∈ (discoverAndHydrate env q1 n1 s0).2.1.hydratedUris := by
    rw [e1]
    exact h1.2
  refine ⟨hmem, ?_⟩
  rw [fetchedUris_append, List.count_append,
    discoverAndHydrate_count_zero env q2 n2 _ u hmem]
  have h1c : (fetchedUris (discoverAndHydrate env q1 n1 s0).2.2).count u = 1 := by
    rw [e1]
    exact h1.1.trans rfl
  rw [h1c]

/-- Witness for C4: with a search always returning the candidate of origin
`echo/a` and a transport serving `schemaA`, two calls from the empty cache
fetch `echo/a` exactly once. -/
theorem hydrate_idempotent_witness :
    ("echo/a".toList ∈
      (discoverAndHydrate envOnce ("q".toList) 5 ⟨[], []⟩).2.1.hydratedUris) ∧
    (fetchedUris ((discoverAndHydrate envOnce ("q".toList) 5 ⟨[], []⟩).2.2 ++
      (discoverAndHydrate envOnce ("r".toList) 5
        (discoverAndHydrate envOnce ("q".toList) 5 ⟨[], []⟩).2.1).2.2)).count
      ("echo/a".toList) = 1 :=
  hydrate_idempotent envOnce ("q".toList) ("r".toList) 5 5 ⟨[], []⟩
    ("echo/a".toList) ⟨"echo".toList, ["a".toList]⟩ [schemaA]
    (by simp) ⟨candA, List.mem_singleton.mpr rfl, rfl⟩ rfl rfl

/-- C7: `discover_and_hydrate` treats failures as partial: an empty
candidate list yields the empty result (not an error), and the result and
final state of any call coincide with those of a run over only the
non-failing candidates — candidates that carry no URI or whose origin
neither is hydrated nor hydrates successfully contribute nothing and abort
nothing. -/
theorem hydrate_partial_failure {A R : Type} (env : Env A R) (q : Str)
    (n : Nat) (s : CacheState) :
    (env.search q n = [] → discoverAndHydrate env q n s = ([], s, [])) ∧
    (discoverAndHydrate env q n s).1 =
      (hydrateLoop env ((env.search q n).filter
        (fun c => !(candidateFails env s c))) s [] []).2.1 ∧
    (discoverAndHydrate env q n s).2.1 =
      (hydrateLoop env ((env.search q n).filter
        (fun c => !(candidateFails env s c))) s [] []).1 := by
  by_cases h : env.search q n = []
  · refine ⟨fun _ => ?_, ?_, ?_⟩
    · simp only [discoverAndHydrate]
      rw [if_pos h]
    · simp only [discoverAndHydrate]
      rw [if_pos h, h]
      rfl
    · simp only [discoverAndHydrate]
      rw [if_pos h, h]
      rfl
  · have hfil := hydrateLoop_filter env s (env.search q n) s []
      ([] : List (TransportCall A)) ([] : List (TransportCall A))
      (fun _ hx => hx) (fun u hu => Or.inl hu)
    have e1 : discoverAndHydrate env q n s =
        ((hydrateLoop env (env.search q n) s [] []).2.1,
          (hydrateLoop env (env.search q n) s [] []).1,
          (hydrateLoop env (env.search q n) s [] []).2.2) := by
      simp only [discoverAndHydrate]
      rw [if_neg h]
    refine ⟨fun h0 => absurd h0 h, ?_, ?_⟩
    · rw [e1]
      exact hfil.2.symm
    · rw [e1]
      exact hfil.1.symm

/-- Witness for C7 at an environment whose search is empty: the call
returns the empty list and the unchanged state. -/
theorem hydrate_partial_failure_witness :
    discoverAndHydrate envTrivial ("q".toList) 5 stateOneTool =
      ([], stateOneTool, []) :=
  (hydrate_partial_failure envTrivial ("q".toList) 5 stateOneTool).1 rfl

end JitMcp
